import Mathlib

/-!
Shallow embedding of the s3dol repository (src/s3dol/base.py and
src/s3dol/store.py).

Python strings are modelled as lists of characters (Str) and byte payloads as
lists of byte values (Bytes).  The remote S3 backend that the boto3 client
talks to is modelled as an explicit state: an association list from bucket
names to buckets, each bucket an association list from object identifiers to
payloads.  Every client call becomes a pure function on that state and Python
exceptions become Except values.

Field and function names follow the source where Lean permits: the Python
attribute named like the key-space scope of a view is called pfx here because
its Python name is a Lean keyword.
-/

namespace S3DolModel

abbrev Str := List Char
abbrev Bytes := List Nat

/-- Python s.startswith(p), as a function of the candidate leading segment p
and the string s. -/
def isPre : Str → Str → Bool
  | [], _ => true
  | _ :: _, [] => false
  | a :: p, b :: s => if a = b then isPre p s else false

/-- Python s.endswith(sfx): sfx is a trailing segment of s. -/
def endsWithS (s sfx : Str) : Bool := isPre sfx.reverse s.reverse

/-- Boolean membership of a string in a list of strings (Python in). -/
def memS : List Str → Str → Bool
  | [], _ => false
  | a :: rest, k => if a = k then true else memS rest k

/-- Association-list lookup, first binding wins. -/
def alookup {α : Type} : List (Str × α) → Str → Option α
  | [], _ => none
  | (k, v) :: rest, k' => if k = k' then some v else alookup rest k'

/-- Association-list update: replace the first binding of k, or append one. -/
def aupdate {α : Type} : List (Str × α) → Str → α → List (Str × α)
  | [], k, v => [(k, v)]
  | (k0, v0) :: rest, k, v =>
    if k0 = k then (k, v) :: rest else (k0, v0) :: aupdate rest k v

/-- Association-list removal of the first binding of k. -/
def aremove {α : Type} : List (Str × α) → Str → List (Str × α)
  | [], _ => []
  | (k0, v0) :: rest, k => if k0 = k then rest else (k0, v0) :: aremove rest k

/-- One S3 bucket: the objects it stores, keyed by full identifier. -/
structure S3Bucket where
  objects : List (Str × Bytes)
deriving DecidableEq

/-- The backend state: all buckets of the account. -/
structure S3State where
  buckets : List (Str × S3Bucket)
deriving DecidableEq

/-- Error kinds reported by the backend for object and bucket operations. -/
inductive S3Error where
  | noSuchBucket
  | noSuchKey
  | bucketNotEmpty
deriving DecidableEq

/-- Errors raised out of head_object in __contains__: the status-coded
ClientError of botocore, and the KeyNotValidError of s3dol.utility. -/
inductive HeadError where
  | keyNotValid
  | clientError (code : Str)
deriving DecidableEq

def code404 : Str := ['4', '0', '4']

/-- Backend get_object: NoSuchBucket if the bucket is absent, NoSuchKey if the
identifier is absent, else the stored payload. -/
def getObject (st : S3State) (bucket id : Str) : Except S3Error Bytes :=
  match alookup st.buckets bucket with
  | none => .error .noSuchBucket
  | some b =>
    match alookup b.objects id with
    | none => .error .noSuchKey
    | some v => .ok v

/-- Backend put_object: stores the payload under the identifier, overwriting
any previous payload; fails only when the bucket is absent. -/
def putObject (st : S3State) (bucket id : Str) (v : Bytes) : Except S3Error S3State :=
  match alookup st.buckets bucket with
  | none => .error .noSuchBucket
  | some b => .ok ⟨aupdate st.buckets bucket ⟨aupdate b.objects id v⟩⟩

/-- Backend delete_object: removes the identifier if present (removing an
absent identifier is accepted); fails only when the bucket is absent. -/
def deleteObject (st : S3State) (bucket id : Str) : Except S3Error S3State :=
  match alookup st.buckets bucket with
  | none => .error .noSuchBucket
  | some b => .ok ⟨aupdate st.buckets bucket ⟨aremove b.objects id⟩⟩

/-- Backend head_object: raises a ClientError with code 404 when the bucket or
the identifier is absent, succeeds otherwise. -/
def headObject (st : S3State) (bucket id : Str) : Except HeadError Unit :=
  match alookup st.buckets bucket with
  | none => .error (.clientError code404)
  | some b =>
    match alookup b.objects id with
    | none => .error (.clientError code404)
    | some _ => .ok ()

/-- The view over a bucket or over a key space inside it: the dataclass
fields of BaseS3BucketReader.  pfx models the Python attribute holding the
key-space scope; the client handle is modelled by an opaque numeric id. -/
structure View where
  client : Nat
  bucket_name : Str
  pfx : Str
  delimiter : Str
deriving DecidableEq

/-- _id_of_key of S3BucketReader: the f-string concatenation of the scope and
the key. -/
def View.idOfKey (v : View) (k : Str) : Str := v.pfx ++ k

/-- _key_of_id of S3BucketReader: Python slicing id[len(scope):]. -/
def View.keyOfId (v : View) (id : Str) : Str := id.drop v.pfx.length

/-- Result of S3BucketReader.__getitem__: either a nested view (navigation)
or the outcome of a data fetch. -/
inductive GetResult where
  | subview (v : View)
  | fetched (r : Except S3Error Bytes)

/-- S3BucketReader.__getitem__: resolve the identifier; if it ends with the
delimiter return a new view of the same type with the scope replaced by the
identifier (all other dataclass fields copied), else fetch the object. -/
def View.getItem (v : View) (st : S3State) (k : Str) : GetResult :=
  let id := v.idOfKey k
  if endsWithS id v.delimiter then
    .subview { v with pfx := id }
  else
    .fetched (getObject st v.bucket_name id)

/-- The try/except body of BaseS3BucketReader.__contains__, as a function of
the outcome of the head_object call: success gives true, a ClientError with
code 404 gives false, a KeyNotValidError and every other ClientError are
re-raised. -/
def containsOfHead (r : Except HeadError Unit) : Except HeadError Bool :=
  match r with
  | .ok _ => .ok true
  | .error .keyNotValid => .error .keyNotValid
  | .error (.clientError code) =>
    if code = code404 then .ok false else .error (.clientError code)

/-- S3BucketReader.__contains__: resolve the identifier, head it, convert the
outcome as BaseS3BucketReader.__contains__ does. -/
def View.containsK (v : View) (st : S3State) (k : Str) : Except HeadError Bool :=
  containsOfHead (headObject st v.bucket_name (v.idOfKey k))

/-- S3BucketDol.__setitem__: resolve the identifier and put the payload. -/
def View.setItem (v : View) (st : S3State) (k : Str) (b : Bytes) : Except S3Error S3State :=
  putObject st v.bucket_name (v.idOfKey k) b

/-- S3BucketDol.__delitem__: resolve the identifier and delete it. -/
def View.delItem (v : View) (st : S3State) (k : Str) : Except S3Error S3State :=
  deleteObject st v.bucket_name (v.idOfKey k)

/-- BaseS3BucketReader.__iter__ applied to the identifiers of the listing
pages (the Resp.key and Resp.contents helpers live in s3dol.utility, outside
src, and are modelled from the spec as the extraction of the listed
identifiers): keep identifiers that do not end with the delimiter. -/
def baseIterKeys (delimiter : Str) (listing : List Str) : List Str :=
  listing.filter (fun k => !(endsWithS k delimiter))

/-- S3BucketReader.__iter__: from the base iteration keep the identifiers
that start with the scope and strip the scope from each. -/
def View.iterKeys (v : View) (listing : List Str) : List Str :=
  ((baseIterKeys v.delimiter listing).filter (fun id => isPre v.pfx id)).map
    (fun id => v.keyOfId id)

/-- All bucket names, as list_buckets returns them. -/
def listBuckets (st : S3State) : List Str := st.buckets.map Prod.fst

/-- Backend create_bucket: idempotent, appends an empty bucket when the name
is absent. -/
def createBucket (st : S3State) (name : Str) : S3State :=
  match alookup st.buckets name with
  | some _ => st
  | none => ⟨st.buckets ++ [(name, ⟨[]⟩)]⟩

/-- S3ClientDol.__getitem__: create the bucket (create_bucket is issued
unconditionally), then return the bucket view with empty scope. -/
def clientGetItem (cid : Nat) (st : S3State) (k : Str) : S3State × View :=
  (createBucket st k, ⟨cid, k, [], ['/']⟩)

/-- S3ClientDol.__setitem__: only creates the bucket; the value is ignored
and a UserWarning is emitted (the returned Bool) when it is not None. -/
def clientSetItem {α : Type} (st : S3State) (k : Str) (v : Option α) : S3State × Bool :=
  (createBucket st k, v.isSome)

/-- The page size of a single list_objects_v2 call without continuation. -/
def maxKeys : Nat := 1000

/-- Backend list_objects_v2 without pagination: at most maxKeys identifiers
of the bucket, in storage order. -/
def listObjectsV2 (st : S3State) (bucket : Str) : Except S3Error (List Str) :=
  match alookup st.buckets bucket with
  | none => .error .noSuchBucket
  | some b => .ok ((b.objects.map Prod.fst).take maxKeys)

/-- Backend delete_objects: batched delete of the given identifiers. -/
def deleteObjects (st : S3State) (bucket : Str) (keys : List Str) : Except S3Error S3State :=
  match alookup st.buckets bucket with
  | none => .error .noSuchBucket
  | some b =>
    .ok ⟨aupdate st.buckets bucket ⟨b.objects.filter (fun kv => !(memS keys kv.1))⟩⟩

/-- Backend delete_bucket: fails with BucketNotEmpty when objects remain. -/
def deleteBucketB (st : S3State) (bucket : Str) : Except S3Error S3State :=
  match alookup st.buckets bucket with
  | none => .error .noSuchBucket
  | some b =>
    if b.objects.isEmpty then .ok ⟨aremove st.buckets bucket⟩
    else .error .bucketNotEmpty

/-- S3ClientDol.__delitem__: one list_objects_v2 call, a batched delete when
the listing is non-empty, then delete_bucket.  A backend error aborts the
remaining steps but keeps the mutations already applied, as raising does in
Python. -/
def clientDelItem (st : S3State) (k : Str) : S3State × Option S3Error :=
  match listObjectsV2 st k with
  | .error e => (st, some e)
  | .ok keys =>
    if keys.isEmpty then
      match deleteBucketB st k with
      | .error e => (st, some e)
      | .ok s2 => (s2, none)
    else
      match deleteObjects st k keys with
      | .error e => (st, some e)
      | .ok st1 =>
        match deleteBucketB st1 k with
        | .error e => (st1, some e)
        | .ok s2 => (s2, none)

/-- The byte values of a digit of the lowercase hexadecimal alphabet. -/
def hexDigitByte (d : Nat) : Nat := if d < 10 then 48 + d else 87 + d

/-- Fuel-driven rendering of n in lowercase hexadecimal, most significant
digit first; empty on n = 0. -/
def hexDigitsAux : Nat → Nat → List Nat
  | _, 0 => []
  | 0, _ => []
  | fuel + 1, n + 1 =>
    hexDigitsAux fuel ((n + 1) / 16) ++ [hexDigitByte ((n + 1) % 16)]

/-- The ASCII bytes of the lowercase hexadecimal rendering of n, as Python
produces for a chunk-size line. -/
def hexBytes (n : Nat) : List Nat := if n = 0 then [48] else hexDigitsAux n n

/-- The terminating chunk of a chunked body: a zero-size line and the blank
line ending the trailer section. -/
def chunkTrailer : Bytes := [48, 13, 10, 13, 10]

/-- Modelled from the spec: wrap(x) is the valid single-chunk framing
hex(len(x)) + CRLF + x + CRLF + trailer.  The wrap function itself is not in
the source; only the repair side is. -/
def wrap (x : Bytes) : Bytes :=
  hexBytes x.length ++ 13 :: 10 :: (x ++ 13 :: 10 :: chunkTrailer)

/-- Whether the byte sequence contains a CR immediately followed by LF. -/
def hasCRLF : Bytes → Bool
  | a :: b :: rest => (if a = 13 ∧ b = 10 then true else hasCRLF (b :: rest))
  | _ => false

/-- Index of the first CR LF pair, as Python bytes.find of the two bytes. -/
def findCRLF : Bytes → Option Nat
  | [] => none
  | [_] => none
  | a :: b :: rest =>
    if a = 13 ∧ b = 10 then some 0 else (findCRLF (b :: rest)).map (· + 1)

/-- Python bytes predicate isdigit on a single byte value. -/
def isDigitB (b : Nat) : Bool := 48 ≤ b && b ≤ 57

/-- Python bytes predicate isalpha on a single byte value. -/
def isAlphaB (b : Nat) : Bool := (65 ≤ b && b ≤ 90) || (97 ≤ b && b ≤ 122)

/-- Python bytes lower on a single byte value. -/
def lowerB (b : Nat) : Nat := if 65 ≤ b && b ≤ 90 then b + 32 else b

/-- The guard of the chunked-encoding heuristic in SupabaseS3Store:
raw starts with the byte of zero, or its first two bytes are decimal digits,
or its first byte is a decimal digit and its second byte is a letter whose
lowercase form is one of the first six hexadecimal letters. -/
def chunkCond (raw : Bytes) : Bool :=
  decide (raw.head? = some 48) ||
  (!(raw.take 2).isEmpty && (raw.take 2).all isDigitB) ||
  (match raw with
   | b0 :: b1 :: _ =>
     isDigitB b0 && isAlphaB b1 && (decide (97 ≤ lowerB b1) && decide (lowerB b1 ≤ 102))
   | _ => false)

/-- The chunked-encoding stripping of SupabaseS3Store.__getitem__: when the
guard fires and two CR LF pairs are found, return the segment between the
first pair and the next one; in every other case return the raw bytes. -/
def repair (raw : Bytes) : Bytes :=
  if chunkCond raw then
    match findCRLF raw with
    | none => raw
    | some p =>
      match findCRLF (raw.drop (p + 2)) with
      | none => raw
      | some q => (raw.drop (p + 2)).take q
  else raw

/-- Errors of SupabaseS3Store.__getitem__: the KeyError it raises on
NoSuchKey, and any other backend error, which propagates unchanged. -/
inductive SupaError where
  | keyError (k : Str)
  | backend (e : S3Error)
deriving DecidableEq

/-- SupabaseS3Store.__getitem__: resolve the identifier, fetch, pass the
payload through the chunk repair; NoSuchKey becomes a KeyError naming the
key, other backend errors propagate. -/
def supabaseGetItem (v : View) (st : S3State) (k : Str) : Except SupaError Bytes :=
  match getObject st v.bucket_name (v.idOfKey k) with
  | .ok raw => .ok (repair raw)
  | .error .noSuchKey => .error (.keyError k)
  | .error e => .error (.backend e)

/-- The marker substring that selects the Supabase branch of S3Store. -/
def supaMark : Str := ['.', 's', 'u', 'p', 'a', 'b', 'a', 's', 'e', '.']

/-- Python substring membership pat in s. -/
def strContainsSub (s pat : Str) : Bool := s.tails.any (fun t => isPre pat t)

/-- S3Store of store.py, for a provided path argument.  The Supabase branch
returns a view whose scope is the path verbatim, with no backend call; the
standard branch accesses the bucket through the registry (which issues
create_bucket), then for make_bucket true re-creates it when missing, and for
make_bucket none only sets an attribute nothing reads. -/
def s3Store (cid : Nat) (st : S3State) (bucket_name : Str) (make_bucket : Option Bool)
    (path : Str) (endpoint_url : Str) : S3State × View :=
  if strContainsSub endpoint_url supaMark then
    (st, ⟨cid, bucket_name, path, ['/']⟩)
  else
    let r := clientGetItem cid st bucket_name
    match make_bucket with
    | none => r
    | some true =>
      if !(memS (listBuckets r.1) bucket_name) then
        ((clientSetItem r.1 bucket_name (some ())).1, r.2)
      else r
    | some false => r

/-- The invariant of the spec on a view: the scope is empty or ends with the
delimiter. -/
def prefixOkB (v : View) : Bool := v.pfx.isEmpty || endsWithS v.pfx v.delimiter

theorem isPre_append {p l : Str} (t : Str) (h : isPre p l = true) :
    isPre p (l ++ t) = true := by
  induction p generalizing l with
  | nil => simp [isPre]
  | cons a p ih =>
    cases l with
    | nil => simp [isPre] at h
    | cons b l =>
      simp only [isPre, List.cons_append] at h ⊢
      by_cases hab : a = b
      · simpa [hab] using ih (by simpa [hab] using h)
      · simp [hab] at h

theorem endsWithS_append_left (p d delim : Str) (h : endsWithS d delim = true) :
    endsWithS (p ++ d) delim = true := by
  unfold endsWithS at h ⊢
  rw [List.reverse_append]
  exact isPre_append _ h

theorem append_drop_of_isPre {p s : Str} (h : isPre p s = true) :
    p ++ s.drop p.length = s := by
  induction p generalizing s with
  | nil => simp
  | cons a p ih =>
    cases s with
    | nil => simp [isPre] at h
    | cons b s =>
      simp only [isPre] at h
      by_cases hab : a = b
      · simpa [hab] using ih (by simpa [hab] using h)
      · simp [hab] at h

/-- Claim C1: for a two-level key split at the delimiter into a directory
part d (ending with the delimiter) and a rest b, indexing with d yields a
nested view sharing client, bucket name and delimiter, whose scope is the
resolved identifier, constructed without touching the backend state; the
nested view resolves b to the same identifier as direct indexing with d ++ b,
so get, contains, put and delete agree along either path; and indexing with
any key whose resolved identifier does not end with the delimiter performs a
data fetch of that identifier. -/
theorem claim1_two_level_equivalence (st : S3State) (v : View) (d b k2 : Str)
    (bts : Bytes) (hd : endsWithS d v.delimiter = true) :
    v.getItem st d = .subview { v with pfx := v.pfx ++ d } ∧
    ({ v with pfx := v.pfx ++ d } : View).client = v.client ∧
    ({ v with pfx := v.pfx ++ d } : View).bucket_name = v.bucket_name ∧
    ({ v with pfx := v.pfx ++ d } : View).delimiter = v.delimiter ∧
    View.idOfKey { v with pfx := v.pfx ++ d } b = v.idOfKey (d ++ b) ∧
    View.getItem { v with pfx := v.pfx ++ d } st b = v.getItem st (d ++ b) ∧
    View.containsK { v with pfx := v.pfx ++ d } st b = v.containsK st (d ++ b) ∧
    View.setItem { v with pfx := v.pfx ++ d } st b bts = v.setItem st (d ++ b) bts ∧
    View.delItem { v with pfx := v.pfx ++ d } st b = v.delItem st (d ++ b) ∧
    (endsWithS (v.idOfKey k2) v.delimiter = false →
      v.getItem st k2 = .fetched (getObject st v.bucket_name (v.idOfKey k2))) := by
  refine ⟨?_, rfl, rfl, rfl, ?_, ?_, ?_, ?_, ?_, ?_⟩
  · simp [View.getItem, View.idOfKey, endsWithS_append_left v.pfx d v.delimiter hd]
  · simp [View.idOfKey, List.append_assoc]
  · simp [View.getItem, View.idOfKey, List.append_assoc]
  · simp [View.containsK, View.idOfKey, List.append_assoc]
  · simp [View.setItem, View.idOfKey, List.append_assoc]
  · simp [View.delItem, View.idOfKey, List.append_assoc]
  · intro h
    simp [View.getItem, h]

theorem claim1_witness :
    View.getItem ⟨0, ['b'], [], ['/']⟩ ⟨[]⟩ ['a', '/'] =
      .subview ⟨0, ['b'], ['a', '/'], ['/']⟩ :=
  (claim1_two_level_equivalence ⟨[]⟩ ⟨0, ['b'], [], ['/']⟩ ['a', '/'] ['b'] ['c'] [1]
    (by decide)).1

/-- Claim C2: iteration over a view yields exactly the listed identifiers
that start with the scope and do not end with the delimiter, each with the
scope stripped from the front; and every key the iteration yields comes from
a listed identifier that does not end with the delimiter, so directory
placeholders never appear. -/
theorem claim2_iteration (v : View) (listing : List Str) :
    v.iterKeys listing =
      (listing.filter (fun id => isPre v.pfx id && !(endsWithS id v.delimiter))).map
        (fun id => id.drop v.pfx.length) ∧
    ∀ k ∈ v.iterKeys listing,
      (v.pfx ++ k) ∈ listing ∧ endsWithS (v.pfx ++ k) v.delimiter = false := by
  have hmain : v.iterKeys listing =
      (listing.filter (fun id => isPre v.pfx id && !(endsWithS id v.delimiter))).map
        (fun id => id.drop v.pfx.length) := by
    simp [View.iterKeys, baseIterKeys, List.filter_filter, View.keyOfId]
  refine ⟨hmain, ?_⟩
  intro k hk
  rw [hmain] at hk
  rcases List.mem_map.1 hk with ⟨id, hid, hfk⟩
  rcases List.mem_filter.1 hid with ⟨hmem, hprop⟩
  rw [Bool.and_eq_true] at hprop
  rcases hprop with ⟨hpre, hends⟩
  have heq : v.pfx ++ k = id := by
    rw [← hfk]
    exact append_drop_of_isPre hpre
  rw [heq]
  exact ⟨hmem, by simpa using hends⟩

theorem claim2_witness :
    (['p', '/'] ++ ['a']) ∈
        [['p', '/', 'a'], ['p', '/', 'd', '/'], ['q', 'x'], ['p', '/', 'b']] ∧
      endsWithS (['p', '/'] ++ ['a']) ['/'] = false :=
  (claim2_iteration ⟨0, ['b'], ['p', '/'], ['/']⟩
    [['p', '/', 'a'], ['p', '/', 'd', '/'], ['q', 'x'], ['p', '/', 'b']]).2
    ['a'] (by decide)

theorem alookup_aupdate_self {α : Type} (l : List (Str × α)) (k : Str) (v : α) :
    alookup (aupdate l k v) k = some v := by
  induction l with
  | nil => simp [aupdate, alookup]
  | cons kv rest ih =>
    rcases kv with ⟨k0, v0⟩
    by_cases h : k0 = k
    · simp [aupdate, h, alookup]
    · simp [aupdate, h, alookup, ih]

/-- Claim C3: in any state where the bucket exists, for any key whose
resolved identifier does not end with the delimiter and any payload, put
succeeds (no precondition on whether the key already holds a value,
overwriting silently) and a subsequent get of the same key fetches exactly
that payload, both operations addressing the identifier scope ++ key. -/
theorem claim3_roundtrip (st : S3State) (v : View) (k : Str) (bts : Bytes)
    (bkt : S3Bucket)
    (hb : alookup st.buckets v.bucket_name = some bkt)
    (hk : endsWithS (v.idOfKey k) v.delimiter = false) :
    ∃ st', v.setItem st k bts = .ok st' ∧
      v.getItem st' k = .fetched (.ok bts) := by
  refine ⟨⟨aupdate st.buckets v.bucket_name ⟨aupdate bkt.objects (v.idOfKey k) bts⟩⟩,
    ?_, ?_⟩
  · simp [View.setItem, putObject, hb]
  · simp [View.getItem, hk, getObject, alookup_aupdate_self]

theorem claim3_witness :
    ∃ st', View.setItem ⟨0, ['b'], [], ['/']⟩ ⟨[(['b'], ⟨[]⟩)]⟩ ['k'] [7] = .ok st' ∧
      View.getItem ⟨0, ['b'], [], ['/']⟩ st' ['k'] = .fetched (.ok [7]) :=
  claim3_roundtrip ⟨[(['b'], ⟨[]⟩)]⟩ ⟨0, ['b'], [], ['/']⟩ ['k'] [7] ⟨[]⟩
    (by decide) (by decide)

/-- Claim C4: for a key whose resolved identifier does not end with the
delimiter, indexing performs the backend fetch of that identifier; when the
bucket exists but the identifier is absent the result is the key-not-found
error kind, when the bucket is absent the result is the distinct
bucket-not-found backend error kind (propagated, not coerced); and the
Supabase store converts exactly the key-not-found backend kind into a
KeyError naming the key. -/
theorem claim4_get_errors (st : S3State) (v : View) (k : Str)
    (hk : endsWithS (v.idOfKey k) v.delimiter = false) :
    v.getItem st k = .fetched (getObject st v.bucket_name (v.idOfKey k)) ∧
    (∀ bkt, alookup st.buckets v.bucket_name = some bkt →
      alookup bkt.objects (v.idOfKey k) = none →
      v.getItem st k = .fetched (.error .noSuchKey)) ∧
    (alookup st.buckets v.bucket_name = none →
      v.getItem st k = .fetched (.error .noSuchBucket)) ∧
    (getObject st v.bucket_name (v.idOfKey k) = .error .noSuchKey →
      supabaseGetItem v st k = .error (.keyError k)) := by
  refine ⟨?_, ?_, ?_, ?_⟩
  · simp [View.getItem, hk]
  · intro bkt h1 h2
    simp [View.getItem, hk, getObject, h1, h2]
  · intro h1
    simp [View.getItem, hk, getObject, h1]
  · intro h1
    simp [supabaseGetItem, h1]

theorem claim4_witness :
    View.getItem ⟨0, ['b'], [], ['/']⟩ ⟨[(['b'], ⟨[]⟩)]⟩ ['k'] =
      .fetched (.error .noSuchKey) :=
  (claim4_get_errors ⟨[(['b'], ⟨[]⟩)]⟩ ⟨0, ['b'], [], ['/']⟩ ['k']
    (by decide)).2.1 ⟨[]⟩ (by decide) (by decide)

/-- Claim C5: contains heads the resolved identifier and returns false
exactly when that head call reports the 404 not-found condition; it returns
true when the head call succeeds; a ClientError with any other status code
propagates unchanged instead of being coerced to false; and the invalid-key
error is re-raised unchanged. -/
theorem claim5_contains (st : S3State) (v : View) (k : Str) :
    v.containsK st k = containsOfHead (headObject st v.bucket_name (v.idOfKey k)) ∧
    (∀ u : Unit, headObject st v.bucket_name (v.idOfKey k) = .ok u →
      v.containsK st k = .ok true) ∧
    (headObject st v.bucket_name (v.idOfKey k) = .error (.clientError code404) →
      v.containsK st k = .ok false) ∧
    (v.containsK st k = .ok false →
      headObject st v.bucket_name (v.idOfKey k) = .error (.clientError code404)) ∧
    (∀ code, code ≠ code404 →
      containsOfHead (.error (.clientError code)) = .error (.clientError code)) ∧
    containsOfHead (.error .keyNotValid) = .error .keyNotValid := by
  refine ⟨rfl, ?_, ?_, ?_, ?_, rfl⟩
  · intro u h
    simp [View.containsK, h, containsOfHead]
  · intro h
    simp [View.containsK, h, containsOfHead]
  · intro h
    unfold View.containsK at h
    cases hh : headObject st v.bucket_name (v.idOfKey k) with
    | ok u =>
      rw [hh] at h
      simp [containsOfHead] at h
    | error e =>
      rw [hh] at h
      cases e with
      | keyNotValid => simp [containsOfHead] at h
      | clientError code =>
        by_cases hc : code = code404
        · rw [hc]
        · simp [containsOfHead, hc] at h
  · intro code hc
    simp [containsOfHead, hc]

theorem claim5_witness :
    containsOfHead (.error (.clientError ['4', '0', '3'])) =
      .error (.clientError ['4', '0', '3']) :=
  (claim5_contains ⟨[]⟩ ⟨0, ['b'], [], ['/']⟩ ['k']).2.2.2.2.1
    ['4', '0', '3'] (by decide)

theorem alookup_append_some {α : Type} {l : List (Str × α)} {b : Str} {x : α}
    (l2 : List (Str × α)) (h : alookup l b = some x) :
    alookup (l ++ l2) b = some x := by
  induction l with
  | nil => exact absurd h (by simp [alookup])
  | cons kv rest ih =>
    rcases kv with ⟨k0, v0⟩
    rw [List.cons_append]
    unfold alookup at h ⊢
    by_cases hk : k0 = b
    · rw [if_pos hk] at h ⊢
      exact h
    · rw [if_neg hk] at h ⊢
      exact ih h

theorem alookup_append_single_self {α : Type} {l : List (Str × α)} {k : Str}
    (x : α) (h : alookup l k = none) :
    alookup (l ++ [(k, x)]) k = some x := by
  induction l with
  | nil => simp [alookup]
  | cons kv rest ih =>
    rcases kv with ⟨k0, v0⟩
    by_cases hk : k0 = k
    · simp [alookup, hk] at h
    · simp [alookup, hk] at h ⊢
      exact ih h

theorem createBucket_lookup_isSome (st : S3State) (k : Str) :
    ∃ bkt, alookup (createBucket st k).buckets k = some bkt := by
  unfold createBucket
  cases h : alookup st.buckets k with
  | some bkt => exact ⟨bkt, h⟩
  | none => exact ⟨⟨[]⟩, alookup_append_single_self _ h⟩

theorem createBucket_keeps {st : S3State} {b : Str} {x : S3Bucket} (k : Str)
    (h : alookup st.buckets b = some x) :
    alookup (createBucket st k).buckets b = some x := by
  unfold createBucket
  cases hk : alookup st.buckets k with
  | some bkt => exact h
  | none => exact alookup_append_some _ h

theorem createBucket_new {st : S3State} {k : Str}
    (h : alookup st.buckets k = none) :
    alookup (createBucket st k).buckets k = some ⟨[]⟩ := by
  unfold createBucket
  rw [h]
  exact alookup_append_single_self _ h

theorem alookup_eq_none_iff {α : Type} (l : List (Str × α)) (k : Str) :
    alookup l k = none ↔ k ∉ l.map Prod.fst := by
  induction l with
  | nil => simp [alookup]
  | cons kv rest ih =>
    rcases kv with ⟨k0, v0⟩
    unfold alookup
    rw [List.map_cons, List.mem_cons]
    by_cases hk : k0 = k
    · rw [if_pos hk]
      constructor
      · intro h
        exact Option.noConfusion h
      · intro hnot
        exact absurd (Or.inl hk.symm) hnot
    · rw [if_neg hk, ih]
      constructor
      · intro hnot hmem
        rcases hmem with heq | hm
        · exact hk heq.symm
        · exact hnot hm
      · intro hnot hm
        exact hnot (Or.inr hm)

theorem listBuckets_createBucket (st : S3State) (b : Str) :
    listBuckets (createBucket st b) =
      (if b ∈ listBuckets st then listBuckets st else listBuckets st ++ [b]) := by
  unfold createBucket listBuckets
  cases h : alookup st.buckets b with
  | some bkt =>
    have : b ∈ st.buckets.map Prod.fst := by
      by_contra hmem
      rw [← alookup_eq_none_iff] at hmem
      rw [h] at hmem
      exact Option.noConfusion hmem
    simp [this]
  | none =>
    have : b ∉ st.buckets.map Prod.fst := (alookup_eq_none_iff _ _).1 h
    simp [this]

theorem mem_listBuckets_createBucket (st : S3State) (b : Str) :
    b ∈ listBuckets (createBucket st b) := by
  rw [listBuckets_createBucket]
  by_cases h : b ∈ listBuckets st <;> simp [h]

/-- Claim C6 as amended: with make_bucket omitted (None) on a non-Supabase
endpoint, S3Store performs no bucket existence check, but the registry access
it goes through issues an unconditional idempotent create_bucket call: the
returned view has empty scope, the bucket exists afterwards (the backend
bucket set gains the name exactly when it was absent), and a subsequent
object operation can no longer fail with the bucket-not-found error. -/
theorem claim6_amended (cid : Nat) (st : S3State) (b path ep : Str)
    (hep : strContainsSub ep supaMark = false) :
    (s3Store cid st b none path ep).1 = createBucket st b ∧
    (s3Store cid st b none path ep).2 = ⟨cid, b, [], ['/']⟩ ∧
    b ∈ listBuckets (s3Store cid st b none path ep).1 ∧
    listBuckets (s3Store cid st b none path ep).1 =
      (if b ∈ listBuckets st then listBuckets st else listBuckets st ++ [b]) ∧
    (∀ id, getObject (s3Store cid st b none path ep).1 b id ≠ .error .noSuchBucket) := by
  have hstore : s3Store cid st b none path ep = (createBucket st b, ⟨cid, b, [], ['/']⟩) := by
    simp [s3Store, hep, clientGetItem]
  refine ⟨by rw [hstore], by rw [hstore], ?_, ?_, ?_⟩
  · rw [hstore]
    exact mem_listBuckets_createBucket st b
  · rw [hstore]
    exact listBuckets_createBucket st b
  · intro id
    rw [hstore]
    rcases createBucket_lookup_isSome st b with ⟨bkt, hbkt⟩
    simp only [getObject, hbkt]
    cases alookup bkt.objects id <;> simp

theorem claim6_witness :
    ['b'] ∈ listBuckets (s3Store 0 ⟨[]⟩ ['b'] none [] ['a']).1 :=
  (claim6_amended 0 ⟨[]⟩ ['b'] [] ['a'] (by decide)).2.2.1

theorem claim6_counterexample :
    listBuckets (s3Store 0 ⟨[]⟩ ['b'] none [] ['a']).1 = [['b']] ∧
    listBuckets (⟨[]⟩ : S3State) = [] ∧
    listBuckets (s3Store 0 ⟨[]⟩ ['b'] none [] ['a']).1 ≠
      listBuckets (⟨[]⟩ : S3State) := by
  refine ⟨by decide, by decide, by decide⟩

/-- Claim C9 as amended: the top-level bucket views of the registry (empty
scope) and every nested view produced by indexing with a delimiter-resolved
key satisfy the invariant that the scope is empty or ends with the delimiter,
and so does the view built by the non-Supabase branch of S3Store (which
ignores its path argument and uses an empty scope); but the Supabase branch
of S3Store uses the path argument verbatim as the scope, so the invariant
fails whenever that path is non-empty and does not end with the delimiter. -/
theorem claim9_amended (cid : Nat) (st : S3State) (k : Str) (v : View)
    (mb : Option Bool) (bn path ep : Str) :
    prefixOkB (clientGetItem cid st k).2 = true ∧
    (∀ kk v', v.getItem st kk = .subview v' → prefixOkB v' = true) ∧
    (strContainsSub ep supaMark = false →
      prefixOkB (s3Store cid st bn mb path ep).2 = true) ∧
    (strContainsSub ep supaMark = true →
      (s3Store cid st bn mb path ep).2 = ⟨cid, bn, path, ['/']⟩) := by
  refine ⟨by simp [prefixOkB, clientGetItem], ?_, ?_, ?_⟩
  · intro kk v' h
    by_cases hc : endsWithS (v.idOfKey kk) v.delimiter
    · simp only [View.getItem, hc, if_pos] at h
      injection h with h2
      rw [← h2]
      simp [prefixOkB, hc]
    · simp [View.getItem, hc] at h
  · intro hep
    cases mb with
    | none => simp [s3Store, hep, clientGetItem, prefixOkB]
    | some mbb =>
      cases mbb with
      | true =>
        cases hmem : memS (listBuckets (createBucket st bn)) bn <;>
          simp [s3Store, hep, clientGetItem, clientSetItem, prefixOkB, hmem]
      | false => simp [s3Store, hep, clientGetItem, prefixOkB]
  · intro hep
    simp [s3Store, hep]

theorem claim9_witness :
    (s3Store 0 ⟨[]⟩ ['b'] none ['a', 'b', 'c'] supaMark).2 =
      ⟨0, ['b'], ['a', 'b', 'c'], ['/']⟩ :=
  (claim9_amended 0 ⟨[]⟩ ['b'] ⟨0, ['b'], [], ['/']⟩ none ['b'] ['a', 'b', 'c']
    supaMark).2.2.2 (by decide)

theorem claim9_counterexample :
    prefixOkB (s3Store 0 ⟨[]⟩ ['b'] none ['a', 'b', 'c'] supaMark).2 = false := by
  decide

/-- Claim C10: assigning through the client registry only issues the
idempotent bucket-create call for the name: the resulting backend state is
the same for every assigned value, existing buckets keep their objects, a
newly created bucket is empty (the value is never stored), and the user
warning fires exactly when the value is not None. -/
theorem claim10_registry_set {α : Type} (st : S3State) (k : Str) (v w : Option α) :
    (clientSetItem st k v).1 = createBucket st k ∧
    (clientSetItem st k v).1 = (clientSetItem st k w).1 ∧
    (∀ b bkt, alookup st.buckets b = some bkt →
      alookup (clientSetItem st k v).1.buckets b = some bkt) ∧
    (alookup st.buckets k = none →
      alookup (clientSetItem st k v).1.buckets k = some ⟨[]⟩) ∧
    (clientSetItem st k v).2 = v.isSome := by
  refine ⟨rfl, rfl, ?_, ?_, rfl⟩
  · intro b bkt h
    exact createBucket_keeps k h
  · intro h
    exact createBucket_new h

theorem claim10_witness :
    alookup (clientSetItem (⟨[]⟩ : S3State) ['b'] (some 5)).1.buckets ['b'] =
      some ⟨[]⟩ :=
  (claim10_registry_set ⟨[]⟩ ['b'] (some 5) none).2.2.2.1 (by decide)

theorem memS_iff (l : List Str) (k : Str) : memS l k = true ↔ k ∈ l := by
  induction l with
  | nil => simp [memS]
  | cons a rest ih =>
    unfold memS
    by_cases h : a = k
    · simp [h]
    · rw [if_neg h, ih, List.mem_cons]
      constructor
      · intro hm
        exact Or.inr hm
      · intro hm
        rcases hm with he | hm
        · exact absurd he.symm h
        · exact hm

theorem mem_mapFst_aupdate {α : Type} (l : List (Str × α)) (k : Str) (v : α) :
    k ∈ (aupdate l k v).map Prod.fst := by
  induction l with
  | nil =>
    show k ∈ [k]
    exact List.mem_singleton_self k
  | cons kv rest ih =>
    rcases kv with ⟨k0, v0⟩
    unfold aupdate
    by_cases h : k0 = k
    · rw [if_pos h]
      rw [List.map_cons]
      exact List.mem_cons_self _ _
    · rw [if_neg h]
      rw [List.map_cons, List.mem_cons]
      exact Or.inr ih

theorem clientDelItem_overflow (st : S3State) (b : Str) (bkt : S3Bucket)
    (hb : alookup st.buckets b = some bkt)
    (hnd : (bkt.objects.map Prod.fst).Nodup)
    (hlen : maxKeys < bkt.objects.length) :
    (clientDelItem st b).2 = some .bucketNotEmpty ∧
      b ∈ listBuckets (clientDelItem st b).1 := by
  have hlist : listObjectsV2 st b = .ok ((bkt.objects.map Prod.fst).take maxKeys) := by
    simp [listObjectsV2, hb]
  have hkeyslen : ((bkt.objects.map Prod.fst).take maxKeys).length = maxKeys := by
    rw [List.length_take, List.length_map]
    omega
  have hkne : ((bkt.objects.map Prod.fst).take maxKeys).isEmpty = false := by
    rw [List.isEmpty_eq_false]
    intro hnil
    rw [hnil] at hkeyslen
    simp [maxKeys] at hkeyslen
  have hdropne : bkt.objects.drop maxKeys ≠ [] := by
    rw [Ne, List.drop_eq_nil_iff]
    omega
  obtain ⟨kv, rest, hdrop⟩ : ∃ kv rest, bkt.objects.drop maxKeys = kv :: rest := by
    cases hd : bkt.objects.drop maxKeys with
    | nil => exact absurd hd hdropne
    | cons kv rest => exact ⟨kv, rest, rfl⟩
  have hkvmem : kv ∈ bkt.objects := by
    refine List.mem_of_mem_drop (n := maxKeys) ?_
    rw [hdrop]
    exact List.mem_cons_self _ _
  have hkvdrop : kv.1 ∈ (bkt.objects.map Prod.fst).drop maxKeys := by
    rw [← List.map_drop, hdrop]
    exact List.mem_map_of_mem _ (List.mem_cons_self _ _)
  have hkvnotin : kv.1 ∉ (bkt.objects.map Prod.fst).take maxKeys := by
    have hnd2 : ((bkt.objects.map Prod.fst).take maxKeys ++
        (bkt.objects.map Prod.fst).drop maxKeys).Nodup := by
      rw [List.take_append_drop]
      exact hnd
    intro hmem
    exact List.disjoint_of_nodup_append hnd2 hmem hkvdrop
  have hmemS : memS ((bkt.objects.map Prod.fst).take maxKeys) kv.1 = false := by
    cases hms : memS ((bkt.objects.map Prod.fst).take maxKeys) kv.1 with
    | false => rfl
    | true => exact absurd ((memS_iff _ _).1 hms) hkvnotin
  have hfilter : kv ∈ bkt.objects.filter
      (fun kv2 => !(memS ((bkt.objects.map Prod.fst).take maxKeys) kv2.1)) := by
    refine List.mem_filter.2 ⟨hkvmem, ?_⟩
    rw [hmemS]
    rfl
  have hfne : (bkt.objects.filter
      (fun kv2 => !(memS ((bkt.objects.map Prod.fst).take maxKeys) kv2.1))).isEmpty
      = false := by
    rw [List.isEmpty_eq_false]
    intro hnil
    rw [hnil] at hfilter
    exact (List.not_mem_nil _) hfilter
  have hdel : deleteObjects st b ((bkt.objects.map Prod.fst).take maxKeys) =
      .ok ⟨aupdate st.buckets b ⟨bkt.objects.filter
        (fun kv2 => !(memS ((bkt.objects.map Prod.fst).take maxKeys) kv2.1))⟩⟩ := by
    simp [deleteObjects, hb]
  have hlookup1 : alookup (aupdate st.buckets b ⟨bkt.objects.filter
      (fun kv2 => !(memS ((bkt.objects.map Prod.fst).take maxKeys) kv2.1))⟩) b =
      some ⟨bkt.objects.filter
        (fun kv2 => !(memS ((bkt.objects.map Prod.fst).take maxKeys) kv2.1))⟩ :=
    alookup_aupdate_self _ _ _
  have hdelB : deleteBucketB ⟨aupdate st.buckets b ⟨bkt.objects.filter
      (fun kv2 => !(memS ((bkt.objects.map Prod.fst).take maxKeys) kv2.1))⟩⟩ b =
      .error .bucketNotEmpty := by
    simp [deleteBucketB, hlookup1, hfne]
  constructor
  · simp [clientDelItem, hlist, hkne, hdel, hdelB]
  · simp only [clientDelItem, hlist, hkne, hdel, hdelB]
    simp only [Bool.false_eq_true, if_false, listBuckets]
    exact mem_mapFst_aupdate _ _ _

/-- Claim C7: the deletion of a bucket issues a single unpaginated listing
call; on a bucket holding more objects than one listing page (here maxKeys +
one distinct keys) the batched delete removes only the listed page, the
final delete_bucket call fails with the bucket-not-empty error, and the
bucket is still present in the bucket listing afterwards, contradicting the
claim that every object is gone and the bucket no longer appears. -/
theorem claim7_delete_bucket_overflow :
    (clientDelItem ⟨[(['b'], ⟨(List.range (maxKeys + 1)).map
        (fun i => (List.replicate i 'a', ([] : Bytes)))⟩)]⟩ ['b']).2 =
      some .bucketNotEmpty ∧
    ['b'] ∈ listBuckets (clientDelItem ⟨[(['b'], ⟨(List.range (maxKeys + 1)).map
        (fun i => (List.replicate i 'a', ([] : Bytes)))⟩)]⟩ ['b']).1 := by
  refine clientDelItem_overflow _ _ ⟨(List.range (maxKeys + 1)).map
      (fun i => (List.replicate i 'a', ([] : Bytes)))⟩ ?_ ?_ ?_
  · simp [alookup]
  · have hmap : (((List.range (maxKeys + 1)).map
        (fun i => (List.replicate i 'a', ([] : Bytes)))).map Prod.fst) =
        (List.range (maxKeys + 1)).map (fun i => List.replicate i 'a') := by
      simp [List.map_map, Function.comp]
    rw [hmap]
    exact List.Nodup.map (List.replicate_left_injective 'a') (List.nodup_range _)
  · simp [List.length_map, List.length_range]

theorem findCRLF_append_of_no_crlf (x : Bytes) (t : Bytes) (h : hasCRLF x = false) :
    findCRLF (x ++ 13 :: 10 :: t) = some x.length := by
  induction x with
  | nil => simp [findCRLF]
  | cons a x ih =>
    cases x with
    | nil =>
      simp only [List.cons_append, List.nil_append]
      unfold findCRLF
      rw [if_neg (fun hh => absurd hh.2 (by decide))]
      simp [findCRLF]
    | cons b x2 =>
      have hcond : ¬(a = 13 ∧ b = 10) := by
        intro hh
        unfold hasCRLF at h
        rw [if_pos hh] at h
        exact Bool.noConfusion h
      have h2 : hasCRLF (b :: x2) = false := by
        unfold hasCRLF at h
        rw [if_neg hcond] at h
        exact h
      simp only [List.cons_append]
      unfold findCRLF
      rw [if_neg hcond, ← List.cons_append, ih h2]
      rfl

theorem hasCRLF_eq_false_of_ge48 (l : Bytes) (h : ∀ b ∈ l, 48 ≤ b) :
    hasCRLF l = false := by
  induction l with
  | nil => rfl
  | cons a l ih =>
    cases l with
    | nil => rfl
    | cons b l2 =>
      have hcond : ¬(a = 13 ∧ b = 10) := by
        intro hh
        have ha := h a (List.mem_cons_self _ _)
        omega
      unfold hasCRLF
      rw [if_neg hcond]
      exact ih (fun x hx => h x (List.mem_cons_of_mem _ hx))

theorem hexDigitsAux_ge48 (fuel : Nat) : ∀ (n : Nat), ∀ b ∈ hexDigitsAux fuel n, 48 ≤ b := by
  induction fuel with
  | zero =>
    intro n b hb
    cases n <;> simp [hexDigitsAux] at hb
  | succ fuel ih =>
    intro n b hb
    cases n with
    | zero => simp [hexDigitsAux] at hb
    | succ m =>
      simp only [hexDigitsAux] at hb
      rw [List.mem_append] at hb
      rcases hb with hb | hb
      · exact ih _ _ hb
      · rw [List.mem_singleton] at hb
        subst hb
        unfold hexDigitByte
        by_cases hlt : (m + 1) % 16 < 10
        · rw [if_pos hlt]
          omega
        · rw [if_neg hlt]
          omega

theorem hexBytes_ge48 (n : Nat) : ∀ b ∈ hexBytes n, 48 ≤ b := by
  unfold hexBytes
  by_cases hn : n = 0
  · rw [if_pos hn]
    intro b hb
    rw [List.mem_singleton] at hb
    omega
  · rw [if_neg hn]
    exact hexDigitsAux_ge48 n n

theorem repair_wrap_of_fires (x : Bytes) (hc : chunkCond (wrap x) = true)
    (hx : hasCRLF x = false) : repair (wrap x) = x := by
  have hhex : hasCRLF (hexBytes x.length) = false :=
    hasCRLF_eq_false_of_ge48 _ (hexBytes_ge48 _)
  have h1 : findCRLF (wrap x) = some (hexBytes x.length).length := by
    unfold wrap
    exact findCRLF_append_of_no_crlf _ _ hhex
  have hdrop : (wrap x).drop ((hexBytes x.length).length + 2) =
      x ++ 13 :: 10 :: chunkTrailer := by
    unfold wrap
    rw [show hexBytes x.length ++ 13 :: 10 :: (x ++ 13 :: 10 :: chunkTrailer) =
      (hexBytes x.length ++ [13, 10]) ++ (x ++ 13 :: 10 :: chunkTrailer) by simp]
    refine List.drop_left' ?_
    rw [List.length_append]
    rfl
  have h2 : findCRLF ((wrap x).drop ((hexBytes x.length).length + 2)) = some x.length := by
    rw [hdrop]
    exact findCRLF_append_of_no_crlf _ _ hx
  simp only [repair, hc, if_true, h1, h2]
  rw [hdrop]
  exact List.take_left' rfl

/-- Claim C8 as amended: reading back a single-chunk wrapped payload
recovers the payload only when the stripping heuristic fires on the wrapped
bytes and the payload itself contains no CR LF pair; when the guard does not
fire (in particular for every payload length from 1 to 15 and every length
whose lowercase hexadecimal rendering starts with a letter) the wrapped
bytes are returned unchanged, so repair(wrap(x)) differs from x. -/
theorem claim8_amended (x : Bytes) :
    (chunkCond (wrap x) = true → hasCRLF x = false → repair (wrap x) = x) ∧
    (chunkCond (wrap x) = false → repair (wrap x) = wrap x) := by
  constructor
  · exact repair_wrap_of_fires x
  · intro h
    simp [repair, h]

theorem claim8_witness :
    repair (wrap (List.replicate 16 65)) = List.replicate 16 65 :=
  (claim8_amended (List.replicate 16 65)).1 (by decide) (by decide)

theorem claim8_counterexample :
    repair (wrap [65]) ≠ [65] ∧ repair (wrap [65]) = wrap [65] := by decide

end S3DolModel
